import Mathlib

/-!
Verification development for the `go-fcm-scraping` repository (`main.go`).

The program is a concurrent web scraper: it fetches team pages, extracts
player rows with three precompiled regular expressions, filters them by
potential/growth thresholds, and collects the records over a channel into
a shared slice that is finally written to a JSON file.

Shallow embedding conventions:
* Go strings are modelled as `List Char` (the regexes operate on runes).
* The three regular expressions compiled in `NewScraper`
  (`<tr.*?>.*?</tr>`, `<td.*?>(.*?)</td>`, `<.*?>`) are embedded as
  executable scanners implementing Go's leftmost-first matching semantics:
  a match is searched starting from the leftmost position; a lazy `.*?`
  consumes as few characters as possible, backtracking forward on failure;
  `.` matches any rune except a newline; after a match the search resumes
  just past it.
* Go slice indexing panics when out of bounds, so the extractor is
  embedded `Option`-valued: `none` models a panic, `some l` a normal
  return.  Totality (no panic is reachable) is proved separately.
* Machine integers are modelled as `Int` (values in this program are
  small; `strconv.Atoi` is modelled as an `Option Int` syntax-level
  parser, failure standing for a non-nil `err`).
-/

set_option maxRecDepth 100000

/-- Does `s` start with the pattern `p`?  (`strings.HasPrefix`). -/
def beginsWith : List Char → List Char → Bool
  | _, [] => true
  | [], _ :: _ => false
  | c :: cs, p :: ps => c = p && beginsWith cs ps

/-- Substring test, `strings.Contains s sub`. -/
def containsSub (s sub : List Char) : Bool :=
  if beginsWith s sub then true
  else
    match s with
    | [] => false
    | _ :: cs => containsSub cs sub

/-- Go `unicode.IsSpace` (the White_Space property), used by
`strings.TrimSpace`. -/
def isGoSpace (c : Char) : Bool :=
  c.toNat ∈ [9, 10, 11, 12, 13, 32, 0x85, 0xA0, 0x1680,
             0x2028, 0x2029, 0x202F, 0x205F, 0x3000]
  || (0x2000 ≤ c.toNat && c.toNat ≤ 0x200A)

/-- Left half of `strings.TrimSpace`. -/
def trimLeft (cs : List Char) : List Char := cs.dropWhile isGoSpace

/-- Right half of `strings.TrimSpace`. -/
def trimRight (cs : List Char) : List Char :=
  (cs.reverse.dropWhile isGoSpace).reverse

/-- Model of `strings.TrimSpace`. -/
def trimSpace (cs : List Char) : List Char := trimRight (trimLeft cs)

/-- One replacement pass of the tag stripper
`regexp.MustCompile("<" ++ ".*?" ++ ">").ReplaceAllString(input, "")`.

The scanner keeps a buffer `pend` of the characters read since the last
unresolved `<` (in Go's semantics a match starts at a `<` and extends to
the first `>` reachable without crossing a newline; `.` matches `<` and
every other non-newline rune, so the whole buffered segment belongs to the
match when a `>` arrives, and none of it can start a match when a newline
or the end of input arrives first, since any later `<` in the buffer faces
the same newline barrier).  -/
def stripAux : List Char → List Char → List Char
  | [], pend => pend
  | c :: cs, pend =>
    if pend.isEmpty then
      if c = '<' then stripAux cs ['<']
      else c :: stripAux cs []
    else
      if c = '>' then stripAux cs []
      else if c = '\n' then pend ++ '\n' :: stripAux cs []
      else stripAux cs (pend ++ [c])

/-- Model of `Scraper.stripTags`: remove every `<` `.*?` `>` match, then
`strings.TrimSpace`. -/
def stripTags (cs : List Char) : List Char := trimSpace (stripAux cs [])

/-- Is there a `>` before the first newline?  (Exactly when a `<` placed
in front of the list would start a tag-stripper match.) -/
def gtBeforeNl : List Char → Bool
  | [] => false
  | c :: cs => if c = '>' then true else if c = '\n' then false else gtBeforeNl cs

/-- No tag-stripper match starts anywhere in the list: every `<` has no
`>` after it before a newline. -/
def noTag : List Char → Bool
  | [] => true
  | c :: cs => (if c = '<' then !gtBeforeNl cs else true) && noTag cs

/-- Digit-string value; `none` if empty or any character is not a digit.
(The digit loop of `strconv.ParseInt`, base 10.) -/
def digitsValAux : List Char → Nat → Option Nat
  | [], acc => some acc
  | c :: cs, acc =>
    if '0' ≤ c ∧ c ≤ '9' then digitsValAux cs (acc * 10 + (c.toNat - '0'.toNat))
    else none

/-- Value of a nonempty all-digit string. -/
def digitsVal : List Char → Option Nat
  | [] => none
  | c :: cs => digitsValAux (c :: cs) 0

/-- Model of `strconv.Atoi`: optional sign, then at least one digit; `none`
models a non-nil error (the row-skipping branches only test `err != nil`,
and the best-effort call sites use `(atoi s).getD 0`, matching the zero
value Go's `Atoi` returns on a syntax error). -/
def atoi : List Char → Option Int
  | [] => none
  | c :: cs =>
    if c = '+' then (digitsVal cs).map Int.ofNat
    else if c = '-' then (digitsVal cs).map (fun n => -(n : Int))
    else (digitsVal (c :: cs)).map Int.ofNat

/-- Lazy-group phase of a `<t?` `.*?` `>` `(.*?)` `</t?>` match: scan for
the literal closing tag `close`, failing on a newline or the end of input
(`.` cannot cross a newline).  Returns the group content consumed and the
remainder after the closing tag. -/
def splitClose (close : List Char) : List Char → Option (List Char × List Char)
  | [] => none
  | c :: cs =>
    if c = '\n' then none
    else if beginsWith (c :: cs) close then some ([], (c :: cs).drop close.length)
    else (splitClose close cs).map (fun t => (c :: t.1, t.2))

/-- Lazy first-star phase: after the literal opening `<tr`/`<td`, consume
as few non-newline characters as possible up to a `>`, then run the group
phase; on group failure backtrack to the next `>` (a `>` is itself a valid
`.` character).  Returns (first-star content, group content, remainder). -/
def splitOpen (close : List Char) : List Char → Option (List Char × List Char × List Char)
  | [] => none
  | c :: cs =>
    if c = '\n' then none
    else if c = '>' then
      match splitClose close cs with
      | some (g, r) => some ([], g, r)
      | none => (splitOpen close cs).map (fun t => (c :: t.1, t.2.1, t.2.2))
    else (splitOpen close cs).map (fun t => (c :: t.1, t.2.1, t.2.2))

/-- The closing literal of the row pattern. -/
def closeTr : List Char := ['<', '/', 't', 'r', '>']

/-- The closing literal of the cell pattern. -/
def closeTd : List Char := ['<', '/', 't', 'd', '>']

/-- Model of `rowPattern.FindAllString(html, -1)` for
`rowPattern = <tr` `.*?` `>` `.*?` `</tr>`: all non-overlapping
leftmost-first matches, as full match strings.  `fuel` bounds the number
of scanning steps; every step consumes at least one character, so
`length + 1` fuel (supplied by `findAllRows`) is always enough. -/
def findAllRowsF : Nat → List Char → List (List Char)
  | 0, _ => []
  | _ + 1, [] => []
  | fuel + 1, c :: cs =>
    if c = '<' ∧ cs.take 2 = ['t', 'r'] then
      match splitOpen closeTr (cs.drop 2) with
      | some (p, b, r) =>
        (['<', 't', 'r'] ++ p ++ '>' :: b ++ closeTr) :: findAllRowsF fuel r
      | none => findAllRowsF fuel cs
    else findAllRowsF fuel cs

/-- All row matches of `rowPattern` in the page text. -/
def findAllRows (cs : List Char) : List (List Char) := findAllRowsF (cs.length + 1) cs

/-- Model of `cellPattern.FindAllStringSubmatch(row, -1)` for
`cellPattern = <td` `.*?` `>` `(.*?)` `</td>`: each match is the
two-element list `[full match, capture group 1]`, exactly the shape of
Go's `[][]string` result for a pattern with one capture group. -/
def findAllCellsF : Nat → List Char → List (List (List Char))
  | 0, _ => []
  | _ + 1, [] => []
  | fuel + 1, c :: cs =>
    if c = '<' ∧ cs.take 2 = ['t', 'd'] then
      match splitOpen closeTd (cs.drop 2) with
      | some (p, g, r) =>
        [['<', 't', 'd'] ++ p ++ '>' :: g ++ closeTd, g] :: findAllCellsF fuel r
      | none => findAllCellsF fuel cs
    else findAllCellsF fuel cs

/-- All cell submatches of `cellPattern` in a row. -/
def findAllCells (cs : List Char) : List (List (List Char)) :=
  findAllCellsF (cs.length + 1) cs

/-- Structure `Team` from `main.go`: static information for a team. -/
structure Team where
  name : List Char
  url : List Char
deriving DecidableEq, Repr

/-- Structure `Player` from `main.go`: the scraped data for a player, with the
fields in source order. -/
structure Player where
  profile : List Char
  team : List Char
  price : List Char
  age : Int
  overall : Int
  potential : Int
  growth : Int
deriving DecidableEq, Repr

/-- Structure `Scraper` from `main.go`: the configuration fields that influence the
modelled behaviour.  The HTTP client, the local random generator and the
three precompiled regexes are represented by the transport/draw oracles
and by `findAllRows` / `findAllCells` / `stripTags` respectively.
Durations are in nanoseconds (`time.Duration` units). -/
structure Scraper where
  minPotential : Int
  minGrowth : Int
  outputFile : List Char
  concurrency : Nat
  minDelay : Int
  maxDelay : Int
deriving DecidableEq, Repr

/-- Model of `NewScraper` from `main.go`: the compiled-in configuration. -/
def NewScraper : Scraper where
  minPotential := 70
  minGrowth := 12
  outputFile := "high_potential_players.json".toList
  concurrency := 3
  minDelay := 2 * 1000000000
  maxDelay := 5 * 1000000000

/-- The loan-marker substring tested by the extractor. -/
def loanMarker : List Char := "Loan".toList

/-- The body of `extractPlayers`' row loop: what one iteration appends.
`some l` is a normal iteration appending the players `l` (`[]` for a
`continue`); `none` models an out-of-bounds slice access, i.e. a Go
panic.  The accesses and checks are in the source's evaluation order:
cell-count guard, `cols[0][1]` + loan check, `cols[2][1]` + potential
parse/threshold, `cols[3][1]` + growth parse/threshold, then the
best-effort `cols[1][1]`, `cols[4][1]`, `cols[5][1]`. -/
def extractRow (s : Scraper) (team : Team) (row : List Char) : Option (List Player) :=
  let cols := findAllCells row
  if cols.length < 6 then some []
  else
    match (cols.get? 0).bind (fun c => c.get? 1) with
    | none => none
    | some nameCell =>
      let profile := stripTags nameCell
      if containsSub profile loanMarker then some []
      else
        match (cols.get? 2).bind (fun c => c.get? 1) with
        | none => none
        | some potCell =>
          match atoi (stripTags potCell) with
          | none => some []
          | some potential =>
            if potential < s.minPotential then some []
            else
              match (cols.get? 3).bind (fun c => c.get? 1) with
              | none => none
              | some grCell =>
                match atoi (stripTags grCell) with
                | none => some []
                | some growth =>
                  if growth < s.minGrowth then some []
                  else
                    match (cols.get? 1).bind (fun c => c.get? 1),
                          (cols.get? 4).bind (fun c => c.get? 1),
                          (cols.get? 5).bind (fun c => c.get? 1) with
                    | some ovCell, some ageCell, some prCell =>
                      some [{ profile := profile
                              team := team.name
                              price := stripTags prCell
                              age := (atoi (stripTags ageCell)).getD 0
                              overall := (atoi (stripTags ovCell)).getD 0
                              potential := potential
                              growth := growth }]
                    | _, _, _ => none

/-- Model of the `for _, row := range rows` loop of `extractPlayers` with accumulator
`acc` (the `players` slice built by `append`). -/
def extractLoop (s : Scraper) (team : Team) : List (List Char) → List Player → Option (List Player)
  | [], acc => some acc
  | row :: rest, acc =>
    match extractRow s team row with
    | none => none
    | some ps => extractLoop s team rest (acc ++ ps)

/-- Model of `Scraper.extractPlayers`: find all row matches and run the row loop.
`none` models a panic (proved unreachable), `some l` the returned slice. -/
def extractPlayers (s : Scraper) (team : Team) (html : List Char) : Option (List Player) :=
  extractLoop s team (findAllRows html) []

/-- A sample team (first entry of the `teams` configuration). -/
def bradford : Team where
  name := "Bradford City".toList
  url := "https://www.fifacm.com/25/team/1804/bradford-city".toList

deriving instance DecidableEq for Except

/-- The outcome the HTTP transport hands back to `fetchHTML`: status code,
status line text (`resp.Status`, e.g. `"204 No Content"`), and the result
of `io.ReadAll(resp.Body)`. -/
structure HTTPResponse where
  statusCode : Nat
  status : List Char
  bodyRead : Except (List Char) (List Char)
deriving DecidableEq, Repr

/-- Model of `Scraper.fetchHTML`, as a function of its two fallible collaborators:
`reqErr` is the `http.NewRequest` outcome and `transport` the
`s.client.Do(req)` outcome.  The pre-request sleep (`fetchDelay`) and the
header rotation only have effects, not results, so they do not appear in
the returned value.  Each `fmt.Errorf` wrap is modelled as the format
text prepended to the underlying cause. -/
def fetchHTML (reqErr : Option (List Char))
    (transport : Except (List Char) HTTPResponse) : Except (List Char) (List Char) :=
  match reqErr with
  | some e => .error ("failed to create request: ".toList ++ e)
  | none =>
    match transport with
    | .error e => .error ("HTTP request failed: ".toList ++ e)
    | .ok resp =>
      if resp.statusCode ≠ 200 then
        .error ("HTTP request failed with status: ".toList ++ resp.status)
      else
        match resp.bodyRead with
        | .error e => .error ("reading response body failed: ".toList ++ e)
        | .ok body => .ok body

/-- The pacing delay computed at the top of `fetchHTML`:
`delay := s.minDelay + time.Duration(s.rand.Int63n(int64(s.maxDelay-s.minDelay)))`,
with `r` the value returned by the `Int63n` draw (whose contract is
`0 ≤ r < s.maxDelay - s.minDelay`). -/
def fetchDelay (s : Scraper) (r : Int) : Int := s.minDelay + r

/-- State of one collector goroutine in `Run`.  `holding snap p` models a
goroutine that has received `p` from the channel and read the current
value `snap` of the shared `allPlayers` slice, but has not yet stored the
appended slice back — `allPlayers = append(allPlayers, player)` is not
atomic.  `finished` models a collector whose `for range` loop has
returned (channel closed and drained). -/
inductive CollState where
  | idle : CollState
  | holding : List Player → Player → CollState
  | finished : CollState
deriving DecidableEq, Repr

/-- Interleaving state of `Run`'s goroutines.  `producers` holds, for each
worker, the players it has still to send on `results` (each worker sends
its `extractPlayers` output in order); `buffer` is the `results` channel
content, with capacity `cap = len(teams)`; `closed` is set by the main
goroutine's `close(results)` after `wg.Wait()`; `shared` is the
`allPlayers` slice; `col1` is the first collector goroutine (started
before the worker pool, waited on by nobody) and `col2` the second one
(the one `collectorWg` tracks). -/
structure RunState where
  producers : List (List Player)
  buffer : List Player
  cap : Nat
  closed : Bool
  shared : List Player
  col1 : CollState
  col2 : CollState
deriving DecidableEq, Repr

/-- Scheduler actions for the `Run` transition system.  The `Bool` picks
a collector: `false` = the first collector loop, `true` = the second. -/
inductive Act where
  | send : Nat → Act
  | closeChan : Act
  | recv : Bool → Act
  | write : Bool → Act
  | exitColl : Bool → Act
deriving DecidableEq, Repr

/-- Read the selected collector's state. -/
def getColl (st : RunState) (k : Bool) : CollState :=
  if k then st.col2 else st.col1

/-- Replace the selected collector's state. -/
def setColl (st : RunState) (k : Bool) (c : CollState) : RunState :=
  if k then { st with col2 := c } else { st with col1 := c }

/-- One interleaving step of `Run`.  `none` means the action is not
enabled in `st` (the corresponding goroutine would block or has no such
transition).
* `send i`: worker `i` sends its next player on the buffered channel
  (blocks while the buffer is full; never happens after close, because
  `close(results)` runs only after `wg.Wait()`).
* `closeChan`: the main goroutine's `wg.Wait(); close(results)` — enabled
  once every worker has sent everything.
* `recv k`: collector `k`'s `for player := range results` receives one
  player and reads the current `allPlayers` slice.
* `write k`: collector `k` stores the appended slice back.
* `exitColl k`: collector `k`'s range loop returns, the channel being
  closed and drained. -/
def step (st : RunState) (a : Act) : Option RunState :=
  match a with
  | .send i =>
    match st.producers.get? i with
    | some (p :: rest) =>
      if st.buffer.length < st.cap ∧ st.closed = false then
        some { st with producers := st.producers.set i rest,
                       buffer := st.buffer ++ [p] }
      else none
    | _ => none
  | .closeChan =>
    if st.producers.all List.isEmpty ∧ st.closed = false then
      some { st with closed := true }
    else none
  | .recv k =>
    match getColl st k, st.buffer with
    | .idle, p :: rest => some (setColl { st with buffer := rest } k (.holding st.shared p))
    | _, _ => none
  | .write k =>
    match getColl st k with
    | .holding snap p => some (setColl { st with shared := snap ++ [p] } k .idle)
    | _ => none
  | .exitColl k =>
    match getColl st k, st.buffer, st.closed with
    | .idle, [], true => some (setColl st k .finished)
    | _, _, _ => none

/-- Initial `Run` state for per-worker record lists `recs` (one entry per
team, the team's `extractPlayers` output): empty channel of capacity
`len(teams)`, empty `allPlayers`, both collector goroutines running. -/
def initState (recs : List (List Player)) : RunState where
  producers := recs
  buffer := []
  cap := recs.length
  closed := false
  shared := []
  col1 := .idle
  col2 := .idle

/-- Run a schedule: apply the steps in order; `none` if any action is not
enabled. -/
def runActs (st : RunState) (acts : List Act) : Option RunState :=
  acts.foldl (fun o a => o.bind (fun s => step s a)) (some st)

/-- The point after `collectorWg.Wait()` where `Run` passes `allPlayers`
to `writePlayersToFile`: the main goroutine has seen `close(results)`
happen and the second collector finish — nothing synchronises with the
first collector. -/
def finalResult (st : RunState) : Option (List Player) :=
  if st.closed = true ∧ st.col2 = CollState.finished then some st.shared else none

/-- The page used in the `Run` handoff analysis: one well-formed row that
passes every filter, so the Extractor yields exactly one Record. -/
def c1Page : List Char :=
  "<tr><td><a>Alice</a></td><td>60</td><td>75</td><td>15</td><td>18</td><td>1.2M</td></tr>".toList

/-- The Record extracted from `c1Page`. -/
def c1Player : Player where
  profile := "Alice".toList
  team := "Bradford City".toList
  price := "1.2M".toList
  age := 18
  overall := 60
  potential := 75
  growth := 15

/-- A legal interleaving of `Run` with one source: the worker sends its
record; the main goroutine closes the channel; the first (leftover)
collector receives the record and is preempted before storing the
append; the second collector sees the closed empty channel and returns;
the main goroutine then reads `allPlayers`. -/
def c1Schedule : List Act :=
  [Act.send 0, Act.closeChan, Act.recv false, Act.exitColl true]

/-- The loan row used as the C4 witness input. -/
def loanRow : List Char :=
  "<tr><td>Bob (Loan)</td><td>99</td><td>99</td><td>99</td><td>17</td><td>1M</td></tr>".toList

/-- The boundary row used as the C3 witness input: potential exactly 70,
growth exactly 12, the `NewScraper` thresholds. -/
def boundaryRow : List Char :=
  "<tr><td>Eve</td><td>58</td><td>70</td><td>12</td><td>16</td><td>900K</td></tr>".toList

/-- The malformed-cells row used as the C7 witness input: overall `"-"`
and age `"?"` do not parse, potential and growth qualify. -/
def malformedRow : List Char :=
  "<tr><td>Kid</td><td>-</td><td>80</td><td>20</td><td>?</td><td>Free</td></tr>".toList

/-- The two-row page used as the C8 witness input. -/
def twoRowPage : List Char :=
  ("<tr><td>Ann</td><td>50</td><td>80</td><td>20</td><td>17</td><td>1M</td></tr>"
    ++ "<tr><td>Ben</td><td>55</td><td>81</td><td>21</td><td>18</td><td>2M</td></tr>").toList

/-- First admitted record of `twoRowPage`. -/
def annRec : Player :=
  { profile := "Ann".toList, team := "Bradford City".toList, price := "1M".toList,
    age := 17, overall := 50, potential := 80, growth := 20 }

/-- Second admitted record of `twoRowPage`. -/
def benRec : Player :=
  { profile := "Ben".toList, team := "Bradford City".toList, price := "2M".toList,
    age := 18, overall := 55, potential := 81, growth := 21 }

theorem splitClose_length {close l g r} (hc : close ≠ [])
    (h : splitClose close l = some (g, r)) : r.length < l.length := by
  induction l generalizing g with
  | nil => simp [splitClose] at h
  | cons c cs ih =>
    rw [splitClose] at h
    split at h
    · simp at h
    · split at h
      · have hcl : 0 < close.length := List.length_pos.mpr hc
        have hr : r = (c :: cs).drop close.length := by
          have := congrArg (fun t => (Option.map Prod.snd t).getD []) h
          simpa using this.symm
        have hlen : r.length = cs.length + 1 - close.length := by rw [hr]; simp
        simp only [List.length_cons]
        omega
      · rcases hsc : splitClose close cs with _ | ⟨g', r'⟩ <;> rw [hsc] at h
        · simp at h
        · simp only [Option.map_some', Option.some.injEq, Prod.mk.injEq] at h
          have := ih (g := g') (by rw [hsc, h.2])
          simp only [List.length_cons]
          omega

theorem splitOpen_length {close l p g r} (hc : close ≠ [])
    (h : splitOpen close l = some (p, g, r)) : r.length < l.length := by
  induction l generalizing p g with
  | nil => simp [splitOpen] at h
  | cons c cs ih =>
    rw [splitOpen] at h
    split at h
    · simp at h
    · split at h
      · split at h
        · rename_i g' r' hsc
          simp only [Option.some.injEq, Prod.mk.injEq] at h
          have := splitClose_length hc (g := g') (r := r) (by rw [hsc, h.2.2])
          simp only [List.length_cons]
          omega
        · rcases hso : splitOpen close cs with _ | ⟨p', g', r'⟩ <;> rw [hso] at h
          · simp at h
          · simp only [Option.map_some', Option.some.injEq, Prod.mk.injEq] at h
            have := ih (p := p') (g := g') (by rw [hso, h.2.2])
            simp only [List.length_cons]
            omega
      · rcases hso : splitOpen close cs with _ | ⟨p', g', r'⟩ <;> rw [hso] at h
        · simp at h
        · simp only [Option.map_some', Option.some.injEq, Prod.mk.injEq] at h
          have := ih (p := p') (g := g') (by rw [hso, h.2.2])
          simp only [List.length_cons]
          omega

example : findAllRows "x<tr><td>a</td></tr>y<tr id=2>b</tr>".toList
    = ["<tr><td>a</td></tr>".toList, "<tr id=2>b</tr>".toList] := by decide

example : findAllCells "<tr><td>a</td><td class=x>b</td></tr>".toList
    = [["<td>a</td>".toList, "a".toList],
       ["<td class=x>b</td>".toList, "b".toList]] := by decide

example : findAllRows "<tr>a\nb</tr>".toList = [] := by decide

example : findAllCells "<td></td>".toList = [["<td></td>".toList, []]] := by decide

example : stripTags ("  <b>Jude</b> Smith ".toList) = "Jude Smith".toList := by decide

example : stripTags ("<<a>>".toList) = ">".toList := by decide

example : atoi "70".toList = some 70 := by decide

example : atoi "-7".toList = some (-7) := by decide

example : atoi "7a".toList = none := by decide

example : atoi "".toList = none := by decide

example : containsSub "John (Loan)".toList "Loan".toList = true := by decide

example :
    extractPlayers NewScraper bradford
      ("<tr><td><a>Alice</a></td><td>60</td><td>75</td><td>15</td><td>18</td><td>1.2M</td></tr>").toList
    = some [{ profile := "Alice".toList, team := "Bradford City".toList,
              price := "1.2M".toList, age := 18, overall := 60,
              potential := 75, growth := 15 }] := by decide

example :
    extractPlayers NewScraper bradford
      ("<tr><td>Bob (Loan)</td><td>60</td><td>75</td><td>15</td><td>18</td><td>1M</td></tr>").toList
    = some [] := by decide

example :
    extractPlayers NewScraper bradford
      ("<tr><td>Carl</td><td>60</td><td>69</td><td>15</td><td>18</td><td>1M</td></tr>").toList
    = some [] := by decide

/-- Claim C9: given `minDelay < maxDelay`, every pacing delay the Fetcher
can compute — `minDelay` plus any value the `Int63n(maxDelay - minDelay)`
draw can return — lies in the half-open interval `[minDelay, maxDelay)`. -/
theorem fetchDelay_in_range (s : Scraper) (r : Int)
    (_hlt : s.minDelay < s.maxDelay) (h0 : 0 ≤ r)
    (hr : r < s.maxDelay - s.minDelay) :
    s.minDelay ≤ fetchDelay s r ∧ fetchDelay s r < s.maxDelay := by
  unfold fetchDelay
  omega

theorem fetchDelay_in_range_witness :
    NewScraper.minDelay ≤ fetchDelay NewScraper 7 ∧
      fetchDelay NewScraper 7 < NewScraper.maxDelay :=
  fetchDelay_in_range NewScraper 7 (by decide) (by decide) (by decide)

/-- Claim C2 (counterexample): a response with the 2xx status 204 whose
body reads fine still makes `fetchHTML` return an error (the code compares
against exactly 200), and that error does not wrap the source name. -/
theorem fetchHTML_204_errors :
    (200 ≤ 204 ∧ 204 < 300) ∧
    fetchHTML none (Except.ok ⟨204, "204 No Content".toList, Except.ok "page".toList⟩)
      = Except.error ("HTTP request failed with status: 204 No Content".toList) ∧
    containsSub ("HTTP request failed with status: 204 No Content".toList)
      "Bradford City".toList = false := by
  exact ⟨by decide, by decide, by decide⟩

/-- Claim C2 (amended): `fetchHTML` succeeds exactly when the request was
built, the transport succeeded, the status is exactly 200 and the body
read succeeded; every failure returns an error message wrapping the
underlying cause (the source name is attached by `processTeam`'s log
call, not by the error). -/
theorem fetchHTML_characterization (re : Option (List Char))
    (tr : Except (List Char) HTTPResponse) :
    ((fetchHTML re tr).isOk = true ↔
      re = none ∧ ∃ resp body, tr = Except.ok resp ∧ resp.statusCode = 200 ∧
        resp.bodyRead = Except.ok body) ∧
    (∀ e, re = some e →
      fetchHTML re tr = Except.error ("failed to create request: ".toList ++ e)) ∧
    (∀ e, re = none → tr = Except.error e →
      fetchHTML re tr = Except.error ("HTTP request failed: ".toList ++ e)) ∧
    (∀ resp, re = none → tr = Except.ok resp → resp.statusCode ≠ 200 →
      fetchHTML re tr
        = Except.error ("HTTP request failed with status: ".toList ++ resp.status)) ∧
    (∀ resp e, re = none → tr = Except.ok resp → resp.statusCode = 200 →
      resp.bodyRead = Except.error e →
      fetchHTML re tr = Except.error ("reading response body failed: ".toList ++ e)) ∧
    (∀ resp body, re = none → tr = Except.ok resp → resp.statusCode = 200 →
      resp.bodyRead = Except.ok body → fetchHTML re tr = Except.ok body) := by
  rcases re with _ | e0
  · rcases tr with e1 | resp
    · simp [fetchHTML, Except.isOk, Except.toBool, HTTPResponse.mk.injEq]
    · rcases resp with ⟨code, statusText, bread⟩
      by_cases hc : code = 200
      · rcases bread with e2 | body <;>
          simp [fetchHTML, Except.isOk, Except.toBool, HTTPResponse.mk.injEq, hc] <;>
          exact ⟨by rintro resp x rfl h1 h2; simp_all,
                 by rintro resp x rfl h1 h2; simp_all⟩
      · rcases bread with e2 | body <;>
          simp [fetchHTML, Except.isOk, Except.toBool, HTTPResponse.mk.injEq, hc] <;>
          exact ⟨by rintro resp x rfl h1 h2; simp_all,
                 by rintro resp x rfl h1 h2; simp_all⟩
  · simp [fetchHTML, Except.isOk, Except.toBool, HTTPResponse.mk.injEq]

theorem fetchHTML_characterization_witness :
    fetchHTML none (Except.ok ⟨200, "200 OK".toList, Except.ok "body".toList⟩)
      = Except.ok "body".toList :=
  (fetchHTML_characterization none
      (Except.ok ⟨200, "200 OK".toList, Except.ok "body".toList⟩)).2.2.2.2.2
    ⟨200, "200 OK".toList, Except.ok "body".toList⟩ "body".toList rfl rfl rfl rfl

/-- Every submatch entry produced by the cell pattern has exactly two
components: the full match and the single capture group. -/
theorem findAllCellsF_shape {fuel : Nat} {cs : List Char} {m : List (List Char)}
    (h : m ∈ findAllCellsF fuel cs) : m.length = 2 := by
  induction fuel generalizing cs with
  | zero => simp [findAllCellsF] at h
  | succ f ih =>
    cases cs with
    | nil => simp [findAllCellsF] at h
    | cons c cs' =>
      rw [findAllCellsF] at h
      split at h
      · split at h
        · rcases List.mem_cons.mp h with h1 | h1
          · subst h1; rfl
          · exact ih h1
        · exact ih h
      · exact ih h

theorem findAllCells_shape {row : List Char} {m : List (List Char)}
    (h : m ∈ findAllCells row) : m.length = 2 :=
  findAllCellsF_shape h

/-- A cell list of length at least 6 decomposes into six two-component
submatches and a tail. -/
theorem findAllCells_six {row : List Char}
    (h : ¬ (findAllCells row).length < 6) :
    ∃ f0 g0 f1 g1 f2 g2 f3 g3 f4 g4 f5 g5 rest,
      findAllCells row =
        [f0, g0] :: [f1, g1] :: [f2, g2] :: [f3, g3] :: [f4, g4] :: [f5, g5] :: rest := by
  have hlen : 6 ≤ (findAllCells row).length := by omega
  have hmem : ∀ m ∈ findAllCells row, m.length = 2 := fun m hm => findAllCells_shape hm
  rcases hc : findAllCells row with _ | ⟨c0, _ | ⟨c1, _ | ⟨c2, _ | ⟨c3, _ | ⟨c4, _ | ⟨c5, rest⟩⟩⟩⟩⟩⟩ <;>
    rw [hc] at hlen <;> simp at hlen
  rw [hc] at hmem
  have two : ∀ (x : List (List Char)), x.length = 2 → ∃ a b, x = [a, b] := by
    intro x hx
    rcases x with _ | ⟨a, _ | ⟨b, _ | _⟩⟩ <;> simp at hx
    exact ⟨a, b, rfl⟩
  obtain ⟨f0, g0, h0⟩ := two c0 (hmem c0 (by simp))
  obtain ⟨f1, g1, h1⟩ := two c1 (hmem c1 (by simp))
  obtain ⟨f2, g2, h2⟩ := two c2 (hmem c2 (by simp))
  obtain ⟨f3, g3, h3⟩ := two c3 (hmem c3 (by simp))
  obtain ⟨f4, g4, h4⟩ := two c4 (hmem c4 (by simp))
  obtain ⟨f5, g5, h5⟩ := two c5 (hmem c5 (by simp))
  subst h0 h1 h2 h3 h4 h5
  exact ⟨f0, g0, f1, g1, f2, g2, f3, g3, f4, g4, f5, g5, rest, rfl⟩

/-- Helper: no branch of the row body is a panic. -/
theorem extractRow_isSome (s : Scraper) (team : Team) (row : List Char) :
    (extractRow s team row).isSome := by
  unfold extractRow
  by_cases h6 : (findAllCells row).length < 6
  · simp [h6]
  · obtain ⟨f0, g0, f1, g1, f2, g2, f3, g3, f4, g4, f5, g5, rest, hc⟩ := findAllCells_six h6
    rw [hc] at h6 ⊢
    simp only [List.get?, Option.bind, if_neg h6]
    repeat' split
    all_goals simp

/-- Helper: the row loop never panics. -/
theorem extractLoop_isSome (s : Scraper) (team : Team) :
    ∀ (rows : List (List Char)) (acc : List Player),
      (extractLoop s team rows acc).isSome := by
  intro rows
  induction rows with
  | nil => intro acc; simp [extractLoop]
  | cons r rest ih =>
    intro acc
    rw [extractLoop]
    rcases h : extractRow s team r with _ | ps
    · have := extractRow_isSome s team r
      rw [h] at this
      simp at this
    · exact ih (acc ++ ps)

/-- Claim C10: the Extractor is total and safe on arbitrary input text —
for every team and every input string `extractPlayers` returns a
(possibly empty) player list and never takes the `none` branch that
models an out-of-bounds access: the cell-count guard runs before the
position-indexed accesses and every cell submatch carries exactly one
capture group. -/
theorem extractPlayers_total (s : Scraper) (team : Team) (html : List Char) :
    ∃ l : List Player, extractPlayers s team html = some l :=
  Option.isSome_iff_exists.mp (extractLoop_isSome s team (findAllRows html) [])

/-- Claim C5: a row whose cell pattern yields fewer than 6 submatches
contributes zero Records — the iteration is a bare `continue`. -/
theorem extractRow_short_row (s : Scraper) (team : Team) (row : List Char)
    (h : (findAllCells row).length < 6) : extractRow s team row = some [] := by
  unfold extractRow
  simp [h]

theorem extractRow_short_row_witness :
    (findAllCells "<tr><td>OnlyCell</td></tr>".toList).length < 6 ∧
      extractRow NewScraper bradford "<tr><td>OnlyCell</td></tr>".toList = some [] :=
  ⟨by decide, extractRow_short_row NewScraper bradford _ (by decide)⟩

/-- Claim C4: a row whose tag-stripped name cell (the first cell's
capture group) contains the loan marker `"Loan"` yields zero Records,
whatever the other cells hold. -/
theorem extractRow_loan_skipped (s : Scraper) (team : Team) (row : List Char)
    (f0 g0 : List Char) (rest : List (List (List Char)))
    (hc : findAllCells row = [f0, g0] :: rest)
    (hl : containsSub (stripTags g0) loanMarker = true) :
    extractRow s team row = some [] := by
  unfold extractRow
  by_cases h6 : (findAllCells row).length < 6
  · simp [h6]
  · rw [hc] at h6 ⊢
    simp [List.get?, if_neg h6, hl]

theorem extractRow_loan_skipped_witness :
    containsSub (stripTags "Bob (Loan)".toList) loanMarker = true ∧
      extractRow NewScraper bradford loanRow = some [] :=
  ⟨by decide,
   extractRow_loan_skipped NewScraper bradford loanRow
     "<td>Bob (Loan)</td>".toList "Bob (Loan)".toList
     [["<td>99</td>".toList, "99".toList],
      ["<td>99</td>".toList, "99".toList],
      ["<td>99</td>".toList, "99".toList],
      ["<td>17</td>".toList, "17".toList],
      ["<td>1M</td>".toList, "1M".toList]]
     (by decide) (by decide)⟩

/-- Helper: the full success path of the row body — at least 6 cells, no
loan marker, potential and growth parse and meet their thresholds —
emits exactly one Record built from the tag-stripped cells, with
best-effort `overall`/`age` and free-form `price`. -/
theorem extractRow_admit (s : Scraper) (team : Team) (row : List Char)
    {f0 g0 f1 g1 f2 g2 f3 g3 f4 g4 f5 g5 : List Char}
    {rest : List (List (List Char))} (P G : Int)
    (hc : findAllCells row =
      [f0, g0] :: [f1, g1] :: [f2, g2] :: [f3, g3] :: [f4, g4] :: [f5, g5] :: rest)
    (hname : containsSub (stripTags g0) loanMarker = false)
    (hpot : atoi (stripTags g2) = some P) (hP : ¬ P < s.minPotential)
    (hgr : atoi (stripTags g3) = some G) (hG : ¬ G < s.minGrowth) :
    extractRow s team row =
      some [{ profile := stripTags g0, team := team.name, price := stripTags g5,
              age := (atoi (stripTags g4)).getD 0,
              overall := (atoi (stripTags g1)).getD 0,
              potential := P, growth := G }] := by
  have h6 : ¬ (findAllCells row).length < 6 := by
    rw [hc]
    simp
  unfold extractRow
  rw [hc]
  rw [hc] at h6
  simp [List.get?, if_neg h6, hname, hpot, hgr, if_neg hP, if_neg hG]

/-- Helper: any player a single row emits satisfies both thresholds. -/
theorem extractRow_thresholds (s : Scraper) (team : Team) (row : List Char)
    (l : List Player) (h : extractRow s team row = some l) :
    ∀ p ∈ l, s.minPotential ≤ p.potential ∧ s.minGrowth ≤ p.growth := by
  unfold extractRow at h
  by_cases h6 : (findAllCells row).length < 6
  · rw [if_pos h6] at h
    simp only [Option.some.injEq] at h
    subst h
    simp
  · obtain ⟨f0, g0, f1, g1, f2, g2, f3, g3, f4, g4, f5, g5, rest, hc⟩ := findAllCells_six h6
    rw [hc] at h h6
    simp only [List.get?, Option.bind, if_neg h6] at h
    repeat' split at h
    all_goals cases h
    all_goals intro p hp
    all_goals simp at hp
    all_goals subst hp
    all_goals (constructor <;> simp <;> omega)

/-- Helper: the loop only adds threshold-satisfying players to `acc`. -/
theorem extractLoop_thresholds (s : Scraper) (team : Team) :
    ∀ (rows : List (List Char)) (acc out : List Player),
      extractLoop s team rows acc = some out →
      ∀ p ∈ out, p ∈ acc ∨ (s.minPotential ≤ p.potential ∧ s.minGrowth ≤ p.growth) := by
  intro rows
  induction rows with
  | nil =>
    intro acc out h p hp
    simp only [extractLoop, Option.some.injEq] at h
    subst h
    exact Or.inl hp
  | cons r rest ih =>
    intro acc out h p hp
    rw [extractLoop] at h
    rcases hr : extractRow s team r with _ | ps <;> rw [hr] at h
    · simp at h
    · rcases ih (acc ++ ps) out h p hp with hmem | hth
      · rcases List.mem_append.mp hmem with h1 | h1
        · exact Or.inl h1
        · exact Or.inr (extractRow_thresholds s team r ps hr p h1)
      · exact Or.inr hth

/-- Claim C3: every Record the Extractor emits satisfies
`potential ≥ minPotential` and `growth ≥ minGrowth`, and both thresholds
are inclusive — a row whose potential equals `minPotential` and whose
growth equals `minGrowth`, passing the other admission checks, is
emitted. -/
theorem extractPlayers_thresholds :
    (∀ (s : Scraper) (team : Team) (html : List Char) (out : List Player),
       extractPlayers s team html = some out →
       ∀ p ∈ out, s.minPotential ≤ p.potential ∧ s.minGrowth ≤ p.growth) ∧
    (∀ (s : Scraper) (team : Team) (row : List Char)
       (f0 g0 f1 g1 f2 g2 f3 g3 f4 g4 f5 g5 : List Char)
       (rest : List (List (List Char))),
       findAllCells row =
         [f0, g0] :: [f1, g1] :: [f2, g2] :: [f3, g3] :: [f4, g4] :: [f5, g5] :: rest →
       containsSub (stripTags g0) loanMarker = false →
       atoi (stripTags g2) = some s.minPotential →
       atoi (stripTags g3) = some s.minGrowth →
       ∃ p, extractRow s team row = some [p] ∧
         p.potential = s.minPotential ∧ p.growth = s.minGrowth) := by
  constructor
  · intro s team html out h p hp
    rcases extractLoop_thresholds s team (findAllRows html) [] out h p hp with hmem | hth
    · simp at hmem
    · exact hth
  · intro s team row f0 g0 f1 g1 f2 g2 f3 g3 f4 g4 f5 g5 rest hc hname hpot hgr
    refine ⟨_, extractRow_admit s team row s.minPotential s.minGrowth hc hname hpot
      (lt_irrefl _) hgr (lt_irrefl _), rfl, rfl⟩

theorem extractPlayers_thresholds_witness :
    ∃ p, extractRow NewScraper bradford boundaryRow = some [p] ∧
      p.potential = NewScraper.minPotential ∧ p.growth = NewScraper.minGrowth :=
  extractPlayers_thresholds.2 NewScraper bradford boundaryRow
    "<td>Eve</td>".toList "Eve".toList
    "<td>58</td>".toList "58".toList
    "<td>70</td>".toList "70".toList
    "<td>12</td>".toList "12".toList
    "<td>16</td>".toList "16".toList
    "<td>900K</td>".toList "900K".toList
    [] (by decide) (by decide) (by decide) (by decide)

/-- Claim C7: once the name, potential and growth checks pass, a
malformed (non-integer) overall or age cell never drops the row — the
Record is still emitted, the malformed field parses to its zero value,
and the price cell is carried through tag-stripped with no numeric
constraint. -/
theorem extractRow_best_effort (s : Scraper) (team : Team) (row : List Char)
    (f0 g0 f1 g1 f2 g2 f3 g3 f4 g4 f5 g5 : List Char)
    (rest : List (List (List Char))) (P G : Int)
    (hc : findAllCells row =
      [f0, g0] :: [f1, g1] :: [f2, g2] :: [f3, g3] :: [f4, g4] :: [f5, g5] :: rest)
    (hname : containsSub (stripTags g0) loanMarker = false)
    (hpot : atoi (stripTags g2) = some P) (hP : ¬ P < s.minPotential)
    (hgr : atoi (stripTags g3) = some G) (hG : ¬ G < s.minGrowth) :
    ∃ p, extractRow s team row = some [p] ∧
      (atoi (stripTags g1) = none → p.overall = 0) ∧
      (atoi (stripTags g4) = none → p.age = 0) ∧
      p.price = stripTags g5 := by
  refine ⟨_, extractRow_admit s team row P G hc hname hpot hP hgr hG, ?_, ?_, rfl⟩
  · intro hov
    simp [hov]
  · intro hage
    simp [hage]

theorem extractRow_best_effort_witness :
    ∃ p, extractRow NewScraper bradford malformedRow = some [p] ∧
      (atoi (stripTags "-".toList) = none → p.overall = 0) ∧
      (atoi (stripTags "?".toList) = none → p.age = 0) ∧
      p.price = stripTags "Free".toList :=
  extractRow_best_effort NewScraper bradford malformedRow
    "<td>Kid</td>".toList "Kid".toList
    "<td>-</td>".toList "-".toList
    "<td>80</td>".toList "80".toList
    "<td>20</td>".toList "20".toList
    "<td>?</td>".toList "?".toList
    "<td>Free</td>".toList "Free".toList
    [] 80 20 (by decide) (by decide) (by decide) (by decide) (by decide) (by decide)

/-- Helper: unfolding one successful loop iteration. -/
theorem extractLoop_cons_some (s : Scraper) (team : Team) (r : List Char)
    (rows : List (List Char)) (acc ps : List Player)
    (h : extractRow s team r = some ps) :
    extractLoop s team (r :: rows) acc = extractLoop s team rows (acc ++ ps) := by
  rw [extractLoop, h]

/-- Helper: the loop's accumulator is only appended to. -/
theorem extractLoop_acc (s : Scraper) (team : Team) :
    ∀ (rows : List (List Char)) (acc : List Player),
      extractLoop s team rows acc
        = (extractLoop s team rows []).map (fun l => acc ++ l) := by
  intro rows
  induction rows with
  | nil => intro acc; simp [extractLoop]
  | cons r rest ih =>
    intro acc
    rw [extractLoop, extractLoop]
    rcases hr : extractRow s team r with _ | ps
    · simp
    · simp only []
      rw [ih (acc ++ ps), ih ([] ++ ps)]
      rcases extractLoop s team rest [] with _ | l
      · simp
      · simp

/-- Helper: the loop splits over list append. -/
theorem extractLoop_append (s : Scraper) (team : Team) :
    ∀ (a b : List (List Char)),
      extractLoop s team (a ++ b) []
        = (extractLoop s team a []).bind
            (fun la => (extractLoop s team b []).map (fun lb => la ++ lb)) := by
  intro a
  induction a with
  | nil =>
    intro b
    have h0 : extractLoop s team [] [] = some [] := rfl
    rw [List.nil_append, h0]
    rcases extractLoop s team b [] with _ | l <;> simp
  | cons r rest ih =>
    intro b
    rw [List.cons_append, extractLoop, extractLoop]
    rcases hr : extractRow s team r with _ | ps
    · simp
    · simp only []
      rw [extractLoop_acc s team (rest ++ b) ([] ++ ps), ih b,
          extractLoop_acc s team rest ([] ++ ps)]
      rcases extractLoop s team rest [] with _ | la
      · simp
      · rcases extractLoop s team b [] with _ | lb <;> simp

/-- Claim C8: within one source page the Extractor preserves row order —
if an admitted row precedes another admitted row in the page's row list,
its Record precedes the other's in the output. -/
theorem extractPlayers_order (s : Scraper) (team : Team) (html : List Char)
    (out : List Player) (i j : Nat) (rowi rowj : List Char) (r1 r2 : Player)
    (hout : extractPlayers s team html = some out)
    (hij : i < j)
    (hi : (findAllRows html).get? i = some rowi)
    (hj : (findAllRows html).get? j = some rowj)
    (h1 : extractRow s team rowi = some [r1])
    (h2 : extractRow s team rowj = some [r2]) :
    ∃ pre mid post, out = pre ++ r1 :: (mid ++ r2 :: post) := by
  set rows := findAllRows html with hrows
  have hilen : i < rows.length := by
    by_contra hcon
    rw [List.get?_eq_none.mpr (by omega)] at hi
    exact absurd hi (by simp)
  have hjlen : j < rows.length := by
    by_contra hcon
    rw [List.get?_eq_none.mpr (by omega)] at hj
    exact absurd hj (by simp)
  have hig : rows[i] = rowi := by
    have := List.get?_eq_getElem? rows i
    rw [hi, List.getElem?_eq_getElem hilen] at this
    exact (Option.some.injEq _ _ ▸ this).symm
  have hjg : rows[j] = rowj := by
    have := List.get?_eq_getElem? rows j
    rw [hj, List.getElem?_eq_getElem hjlen] at this
    exact (Option.some.injEq _ _ ▸ this).symm
  -- decompose the row list around positions i and j
  have hdropi : rows.drop i = rowi :: rows.drop (i + 1) := by
    rw [List.drop_eq_getElem_cons hilen, hig]
  have hsplit1 : rows = rows.take i ++ (rowi :: rows.drop (i + 1)) := by
    rw [← hdropi, List.take_append_drop]
  have hjdlen : j - (i + 1) < (rows.drop (i + 1)).length := by
    rw [List.length_drop]
    omega
  have hjd : (rows.drop (i + 1))[j - (i + 1)] = rowj := by
    rw [List.getElem_drop]
    have : i + 1 + (j - (i + 1)) = j := by omega
    simp only [this]
    exact hjg
  have hdropj : (rows.drop (i + 1)).drop (j - (i + 1))
      = rowj :: (rows.drop (i + 1)).drop (j - (i + 1) + 1) := by
    rw [List.drop_eq_getElem_cons hjdlen, hjd]
  have hsplit2 : rows.drop (i + 1)
      = (rows.drop (i + 1)).take (j - (i + 1))
        ++ (rowj :: (rows.drop (i + 1)).drop (j - (i + 1) + 1)) := by
    rw [← hdropj, List.take_append_drop]
  -- run the loop over the decomposition
  obtain ⟨l1, hl1⟩ := Option.isSome_iff_exists.mp
    (extractLoop_isSome s team (rows.take i) [])
  obtain ⟨l2, hl2⟩ := Option.isSome_iff_exists.mp
    (extractLoop_isSome s team ((rows.drop (i + 1)).take (j - (i + 1))) [])
  obtain ⟨l3, hl3⟩ := Option.isSome_iff_exists.mp
    (extractLoop_isSome s team ((rows.drop (i + 1)).drop (j - (i + 1) + 1)) [])
  have hmid : extractLoop s team (rowj :: (rows.drop (i + 1)).drop (j - (i + 1) + 1)) []
      = some (r2 :: l3) := by
    rw [extractLoop_cons_some s team _ _ _ _ h2, extractLoop_acc, hl3]
    rfl
  have htail : extractLoop s team (rows.drop (i + 1)) [] = some (l2 ++ r2 :: l3) := by
    rw [hsplit2, extractLoop_append, hl2, hmid]
    rfl
  have hcons : extractLoop s team (rowi :: rows.drop (i + 1)) []
      = some (r1 :: (l2 ++ r2 :: l3)) := by
    rw [extractLoop_cons_some s team _ _ _ _ h1, extractLoop_acc, htail]
    rfl
  have hall : extractLoop s team rows [] = some (l1 ++ r1 :: (l2 ++ r2 :: l3)) := by
    rw [hsplit1, extractLoop_append, hl1, hcons]
    rfl
  unfold extractPlayers at hout
  rw [← hrows, hall] at hout
  exact ⟨l1, l2, l3, by simpa using hout.symm⟩

theorem extractPlayers_order_witness :
    ∃ pre mid post,
      [annRec, benRec] = pre ++ annRec :: (mid ++ benRec :: post) :=
  extractPlayers_order NewScraper bradford twoRowPage [annRec, benRec] 0 1
    "<tr><td>Ann</td><td>50</td><td>80</td><td>20</td><td>17</td><td>1M</td></tr>".toList
    "<tr><td>Ben</td><td>55</td><td>81</td><td>21</td><td>18</td><td>2M</td></tr>".toList
    annRec benRec (by decide) (by decide) (by decide) (by decide) (by decide) (by decide)

/-- Helper: a `>`-before-newline in a list gives one in any extension. -/
theorem gtBeforeNl_append_false {a b : List Char}
    (h : gtBeforeNl (a ++ b) = false) : gtBeforeNl a = false := by
  induction a with
  | nil => rfl
  | cons c a' ih =>
    by_cases h1 : c = '>'
    · rw [List.cons_append, gtBeforeNl, if_pos h1] at h
      exact absurd h (by simp)
    · by_cases h2 : c = '\n'
      · rw [gtBeforeNl, if_neg h1, if_pos h2]
      · rw [List.cons_append, gtBeforeNl, if_neg h1, if_neg h2] at h
        rw [gtBeforeNl, if_neg h1, if_neg h2]
        exact ih h

/-- Helper: a list without `>` has no `>` before a newline. -/
theorem gtBeforeNl_no_gt {l : List Char} (h : '>' ∉ l) : gtBeforeNl l = false := by
  induction l with
  | nil => rfl
  | cons c l' ih =>
    have h1 : ¬ c = '>' := fun hc => h (List.mem_cons.mpr (Or.inl hc.symm))
    by_cases h2 : c = '\n'
    · rw [gtBeforeNl, if_neg h1, if_pos h2]
    · rw [gtBeforeNl, if_neg h1, if_neg h2]
      exact ih (fun hm => h (List.mem_cons_of_mem c hm))

/-- Helper: a `>`-free block followed by a newline blocks every match. -/
theorem gtBeforeNl_append_nl {a t : List Char} (h : '>' ∉ a) :
    gtBeforeNl (a ++ '\n' :: t) = false := by
  induction a with
  | nil =>
    rw [List.nil_append, gtBeforeNl, if_neg (by decide), if_pos rfl]
  | cons c a' ih =>
    have h1 : ¬ c = '>' := fun hc => h (List.mem_cons.mpr (Or.inl hc.symm))
    by_cases h2 : c = '\n'
    · rw [List.cons_append, gtBeforeNl, if_neg h1, if_pos h2]
    · rw [List.cons_append, gtBeforeNl, if_neg h1, if_neg h2]
      exact ih (fun hm => h (List.mem_cons_of_mem c hm))

/-- Helper: `noTag` restricts to left parts. -/
theorem noTag_append_left {a b : List Char} (h : noTag (a ++ b) = true) :
    noTag a = true := by
  induction a with
  | nil => rfl
  | cons c a' ih =>
    rw [List.cons_append, noTag, Bool.and_eq_true] at h
    rw [noTag, Bool.and_eq_true]
    refine ⟨?_, ih h.2⟩
    by_cases h1 : c = '<'
    · rw [if_pos h1] at h ⊢
      have := h.1
      rw [Bool.not_eq_true'] at this
      rw [Bool.not_eq_true']
      exact gtBeforeNl_append_false this
    · rw [if_neg h1]

/-- Helper: `noTag` restricts to right parts. -/
theorem noTag_append_right {a b : List Char} (h : noTag (a ++ b) = true) :
    noTag b = true := by
  induction a with
  | nil => exact h
  | cons c a' ih =>
    rw [List.cons_append, noTag, Bool.and_eq_true] at h
    exact ih h.2

/-- Helper: a list without `>` is trivially tag-free. -/
theorem noTag_of_no_gt {l : List Char} (h : '>' ∉ l) : noTag l = true := by
  induction l with
  | nil => rfl
  | cons c l' ih =>
    have hl : '>' ∉ l' := fun hm => h (List.mem_cons_of_mem c hm)
    rw [noTag, Bool.and_eq_true]
    refine ⟨?_, ih hl⟩
    by_cases h1 : c = '<'
    · rw [if_pos h1, Bool.not_eq_true']
      exact gtBeforeNl_no_gt hl
    · rw [if_neg h1]

/-- Helper: flushing a `>`-free buffer before a newline keeps the output
tag-free. -/
theorem noTag_flush : ∀ {pend t : List Char}, '>' ∉ pend → noTag t = true →
    noTag (pend ++ '\n' :: t) = true := by
  intro pend
  induction pend with
  | nil =>
    intro t _ ht
    rw [List.nil_append, noTag, Bool.and_eq_true]
    exact ⟨by rw [if_neg (by decide)], ht⟩
  | cons p0 ps ih =>
    intro t hp ht
    rw [List.cons_append, noTag, Bool.and_eq_true]
    have hps : '>' ∉ ps := fun hm => hp (List.mem_cons_of_mem _ hm)
    refine ⟨?_, ih hps ht⟩
    by_cases h1 : p0 = '<'
    · rw [if_pos h1, Bool.not_eq_true']
      exact gtBeforeNl_append_nl hps
    · rw [if_neg h1]

/-- Helper: on tag-free input the replacement pass is the identity (the
pending buffer is flushed in front). -/
theorem stripAux_noTag : ∀ (cs pend : List Char), noTag cs = true →
    (pend = [] ∨ gtBeforeNl cs = false) → stripAux cs pend = pend ++ cs := by
  intro cs
  induction cs with
  | nil =>
    intro pend _ _
    rw [stripAux]
    simp
  | cons c cs' ih =>
    intro pend h hp
    rw [noTag, Bool.and_eq_true] at h
    match pend with
    | [] =>
      rw [stripAux, if_pos (by rfl)]
      by_cases h1 : c = '<'
      · rw [if_pos h1]
        have hgt : gtBeforeNl cs' = false := by
          have := h.1
          rw [if_pos h1, Bool.not_eq_true'] at this
          exact this
        rw [ih ['<'] h.2 (Or.inr hgt), h1]
        rfl
      · rw [if_neg h1, ih [] h.2 (Or.inl rfl)]
        rfl
    | p0 :: ps =>
      have hgt : gtBeforeNl (c :: cs') = false := by
        rcases hp with hp | hp
        · exact absurd hp (by simp)
        · exact hp
      have hc1 : ¬ c = '>' := by
        intro hc
        rw [gtBeforeNl, if_pos hc] at hgt
        exact absurd hgt (by simp)
      rw [stripAux, if_neg (by simp)]
      by_cases hc2 : c = '\n'
      · rw [if_neg hc1, if_pos hc2, ih [] h.2 (Or.inl rfl), hc2]
        simp
      · rw [if_neg hc1, if_neg hc2]
        have hgt' : gtBeforeNl cs' = false := by
          rw [gtBeforeNl, if_neg hc1, if_neg hc2] at hgt
          exact hgt
        rw [ih ((p0 :: ps) ++ [c]) h.2 (Or.inr hgt')]
        simp

/-- Helper: the replacement pass always produces tag-free output. -/
theorem stripAux_noTag_out : ∀ (cs pend : List Char), '>' ∉ pend →
    noTag (stripAux cs pend) = true := by
  intro cs
  induction cs with
  | nil =>
    intro pend hp
    rw [stripAux]
    exact noTag_of_no_gt hp
  | cons c cs' ih =>
    intro pend hp
    match pend with
    | [] =>
      rw [stripAux, if_pos (by rfl)]
      by_cases h1 : c = '<'
      · rw [if_pos h1]
        exact ih ['<'] (by decide)
      · rw [if_neg h1, noTag, Bool.and_eq_true]
        exact ⟨by rw [if_neg h1], ih [] (by simp)⟩
    | p0 :: ps =>
      rw [stripAux, if_neg (by simp)]
      by_cases h1 : c = '>'
      · rw [if_pos h1]
        exact ih [] (by simp)
      · by_cases h2 : c = '\n'
        · rw [if_neg h1, if_pos h2]
          exact noTag_flush hp (ih [] (by simp))
        · rw [if_neg h1, if_neg h2]
          refine ih ((p0 :: ps) ++ [c]) ?_
          intro hm
          rcases List.mem_append.mp hm with hm | hm
          · exact hp hm
          · simp at hm
            exact h1 hm.symm

/-- Helper: `dropWhile` is idempotent. -/
theorem dropWhile_idem {p : Char → Bool} {l : List Char} :
    (l.dropWhile p).dropWhile p = l.dropWhile p := by
  induction l with
  | nil => rfl
  | cons c l' ih =>
    rw [List.dropWhile_cons]
    by_cases h : p c = true
    · rw [if_pos h]
      exact ih
    · rw [if_neg h, List.dropWhile_cons, if_neg h]

/-- Helper: `trimRight` keeps a left part of the list. -/
theorem trimRight_append (l : List Char) : ∃ b, l = trimRight l ++ b := by
  refine ⟨(l.reverse.takeWhile isGoSpace).reverse, ?_⟩
  have h := congrArg List.reverse
    (List.takeWhile_append_dropWhile (p := isGoSpace) (l := l.reverse))
  rw [List.reverse_append, List.reverse_reverse] at h
  rw [trimRight]
  exact h.symm

/-- Helper: `trimRight` is idempotent. -/
theorem trimRight_idem (l : List Char) : trimRight (trimRight l) = trimRight l := by
  unfold trimRight
  rw [List.reverse_reverse, dropWhile_idem]

/-- Helper: `dropWhile` never lengthens a list. -/
theorem length_dropWhile_le (p : Char → Bool) :
    ∀ l : List Char, (l.dropWhile p).length ≤ l.length := by
  intro l
  induction l with
  | nil => simp
  | cons c t ih =>
    rw [List.dropWhile_cons]
    by_cases h : p c = true
    · rw [if_pos h]
      simp only [List.length_cons]
      omega
    · rw [if_neg h]

/-- Helper: a left part of a `dropWhile` fixed point is itself fixed. -/
theorem dropWhile_fix_left {p : Char → Bool} {u v b : List Char}
    (hu : u.dropWhile p = u) (hb : u = v ++ b) : v.dropWhile p = v := by
  cases v with
  | nil => rfl
  | cons c t =>
    rw [hb, List.cons_append, List.dropWhile_cons] at hu
    by_cases hc : p c = true
    · rw [if_pos hc] at hu
      have hlen := congrArg List.length hu
      have hle := length_dropWhile_le p (t ++ b)
      simp only [List.length_cons] at hlen
      omega
    · rw [List.dropWhile_cons, if_neg hc]

/-- Helper: `trimSpace` is idempotent. -/
theorem trimSpace_idem (l : List Char) : trimSpace (trimSpace l) = trimSpace l := by
  have hudrop : (trimLeft l).dropWhile isGoSpace = trimLeft l := by
    rw [trimLeft]
    exact dropWhile_idem
  obtain ⟨b, hb⟩ := trimRight_append (trimLeft l)
  have hleft : trimLeft (trimRight (trimLeft l)) = trimRight (trimLeft l) := by
    rw [trimLeft]
    exact dropWhile_fix_left hudrop hb
  show trimRight (trimLeft (trimSpace l)) = trimSpace l
  rw [trimSpace, hleft, trimRight_idem]

/-- Helper: trimming preserves tag-freeness. -/
theorem noTag_trimSpace {l : List Char} (h : noTag l = true) :
    noTag (trimSpace l) = true := by
  have h1 : noTag (trimLeft l) = true := by
    refine noTag_append_right (a := l.takeWhile isGoSpace) ?_
    rw [trimLeft, List.takeWhile_append_dropWhile]
    exact h
  obtain ⟨b, hb⟩ := trimRight_append (trimLeft l)
  refine noTag_append_left (b := b) ?_
  rw [trimSpace, ← hb]
  exact h1

/-- Claim C6: markup-tag stripping is idempotent — for every input string,
`stripTags (stripTags s) = stripTags s`. -/
theorem stripTags_idem (s : List Char) : stripTags (stripTags s) = stripTags s := by
  unfold stripTags
  have h1 : noTag (stripAux s []) = true := stripAux_noTag_out s [] (by simp)
  have h2 : noTag (trimSpace (stripAux s [])) = true := noTag_trimSpace h1
  rw [stripAux_noTag _ [] h2 (Or.inl rfl), List.nil_append, trimSpace_idem]

/-- Claim C1 (code bug): `Run` starts the collection loop twice — a first
collector goroutine before the worker pool and a second one tracked by
`collectorWg` — and both append to the same `allPlayers` slice while the
main goroutine only joins the second.  Under the legal interleaving
`c1Schedule` (one source, so any concurrency limit from 1 up behaves the
same), the Extractor produces exactly one Record, every worker finishes,
the channel is closed and drained, `collectorWg.Wait()` returns — and the
file is written from an `allPlayers` that holds zero Records: the record
received by the leftover first collector is lost, so the final count does
not equal the sum of per-source Extractor outputs. -/
theorem run_loses_record :
    extractPlayers NewScraper bradford c1Page = some [c1Player] ∧
    (runActs (initState [[c1Player]]) c1Schedule).bind finalResult = some [] ∧
    ([[c1Player]].map List.length).sum = 1 := by
  exact ⟨by decide, by decide, by decide⟩
